import Mathlib

/-!
A shallow embedding of `analyze_can_data.py`: a CAN-frame decoder built on the
cantools library. Pure functions of the script (`normalize_data_field`, the
CAN-id parsing, the per-frame decode step of `decode_can_data`, and the output
formatting of `save_decoded_data`) are translated into executable Lean
definitions; the behaviour of the library call
`message.decode(data_bytes, allow_truncated=True)` is embedded from the
cantools decode path the script invokes (`decode_data` with
`allow_truncated=True`, `allow_excess=True`, `decode_choices=True`,
`scaling=True`).

Modelling conventions:
* Python byte strings are `List Nat` (each entry < 256), Python ints are `Int`
  or `Nat`, and the double-precision scale/offset arithmetic is modelled with
  `ℚ` (the claims settled here depend only on which value is produced, not on
  binary-float rounding).
* The Python int/float distinction of a decoded value is not tracked: both are
  `SigValue.num : ℚ`.  It only influences the text rendering of numbers, which
  no claim depends on; `pyNumStr` renders all numbers float-style.
* Python's `int(...)` digit-grouping underscores and non-ASCII digits /
  whitespace are not modelled; no claim depends on them.
-/

namespace CAN

/-! ## Character helpers for the Row Pipeline -/

/-- ASCII whitespace as matched by Python's `str.strip` and `re`'s `\s`
(space, tab, newline, carriage return, vertical tab, form feed). -/
def isPySpace (c : Char) : Bool :=
  c == ' ' || c == '\t' || c == '\n' || c == '\r' || c == '\x0b' || c == '\x0c'

/-- A hexadecimal digit, the character class `[0-9A-Fa-f]` of
`normalize_data_field`'s validation regex. -/
def isHexChar (c : Char) : Bool :=
  c.isDigit || ('a' ≤ c && c ≤ 'f') || ('A' ≤ c && c ≤ 'F')

/-- Python `str.strip()` on a character list: drop leading and trailing
whitespace. -/
def stripChars (l : List Char) : List Char :=
  ((l.dropWhile isPySpace).reverse.dropWhile isPySpace).reverse

/-- Python `s.strip().replace('"', '')` as applied to the `timestamp` and
`can_id` fields (line 56-57 of the source). -/
def cleanField (s : String) : String :=
  String.mk ((stripChars s.data).filter (fun c => !(c == '"')))

/-- Python `re.sub(r'0x', '', data, flags=re.IGNORECASE)`: delete every
(non-overlapping, left-to-right) occurrence of `0x` or `0X`. -/
def remove0x : List Char → List Char
  | [] => []
  | [c] => [c]
  | c :: d :: rest2 =>
    if c = '0' ∧ (d = 'x' ∨ d = 'X') then remove0x rest2
    else c :: remove0x (d :: rest2)

/-- The normal form computed by `normalize_data_field` before its validation
checks: strip surrounding whitespace, delete quotes, delete all whitespace,
delete all case-insensitive `0x` substrings. -/
def coreNorm (s : String) : List Char :=
  remove0x (((stripChars s.data).filter (fun c => !(c == '"'))).filter
    (fun c => !(isPySpace c)))

/-- The function `normalize_data_field` (source lines 23-39): normalise the
data field, then require an even length and (per the regex `^[0-9A-Fa-f]+$`)
a nonempty all-hex result; a failed check raises `ValueError`, modelled as
`Except.error`.  The error strings stand for the Python messages without the
interpolated data. -/
def normalize_data_field (s : String) : Except String String :=
  let d := coreNorm s
  if d.length % 2 ≠ 0 then Except.error "Invalid hex string length"
  else if d = [] ∨ ¬ (d.all isHexChar = true) then Except.error "Invalid hex characters"
  else Except.ok (String.mk d)

/-- Numeric value of one hexadecimal digit character. -/
def hexVal (c : Char) : Nat :=
  if c.isDigit then c.toNat - 48
  else if 'a' ≤ c && c ≤ 'f' then c.toNat - 87
  else if 'A' ≤ c && c ≤ 'F' then c.toNat - 55
  else 0

/-- Value of a big-endian string of hexadecimal digits. -/
def hexNat (l : List Char) : Nat :=
  l.foldl (fun a c => 16 * a + hexVal c) 0

/-- Python `bytes.fromhex` on an (even-length) normalised hex string: two
digits per byte, first pair is byte 0. -/
def hexToBytes : List Char → List Nat
  | a :: b :: rest => (16 * hexVal a + hexVal b) :: hexToBytes rest
  | _ => []

/-! ## CAN id parsing (source line 68) -/

/-- Value of a decimal digit string, `none` if empty or not all digits. -/
def decDigits (l : List Char) : Option Nat :=
  if l ≠ [] ∧ l.all Char.isDigit = true then
    some (l.foldl (fun a c => 10 * a + (c.toNat - 48)) 0)
  else none

/-- Python `int(s)` (base 10): optional sign followed by decimal digits.
Surrounding whitespace was already stripped by the caller; digit-grouping
underscores are not modelled. -/
def pyIntDecChars (l : List Char) : Option Int :=
  match l with
  | [] => none
  | c :: rest =>
    if c = '-' then (decDigits rest).map (fun n => -(n : Int))
    else if c = '+' then (decDigits rest).map (fun n => (n : Int))
    else (decDigits (c :: rest)).map (fun n => (n : Int))

/-- Whether a character list begins with the exact two characters `0x`
(Python's case-sensitive `can_id_str.startswith('0x')`). -/
def startsWith0x (l : List Char) : Bool :=
  match l with
  | c :: d :: _ => c == '0' && d == 'x'
  | _ => false

/-- CAN id parsing of source line 68:
`int(can_id_str, 16) if can_id_str.startswith('0x') else int(can_id_str)`.
For the hex branch, `int(s, 16)` on a string known to begin `0x` accepts a
nonempty all-hex remainder and yields its value. -/
def parseCanIdChars (l : List Char) : Option Int :=
  if startsWith0x l then
    let rest := l.drop 2
    if rest ≠ [] ∧ rest.all isHexChar = true then some ((hexNat rest : Nat) : Int)
    else none
  else pyIntDecChars l

/-- CAN id parsing on a string. -/
def parseCanId (s : String) : Option Int := parseCanIdChars s.data

/-! ## Python hex rendering (`hex(can_id)` and the `Unknown_` name) -/

/-- Python `hex(n)`: lowercase hexadecimal digits with a `0x` prefix, and a
leading `-` for negative ints. -/
def pyHexChars (n : Int) : List Char :=
  if n < 0 then '-' :: '0' :: 'x' :: Nat.toDigits 16 n.natAbs
  else '0' :: 'x' :: Nat.toDigits 16 n.toNat

/-- Python `hex(n)` as a string. -/
def pyHex (n : Int) : String := String.mk (pyHexChars n)

/-- One uppercase hexadecimal digit (independent rendering used to state the
`Unknown_` naming claim). -/
def hexUpperDigit (n : Nat) : Char :=
  if n < 10 then Char.ofNat (48 + n)
  else if n < 16 then Char.ofNat (55 + n)
  else '*'

/-- Fuelled digit loop for the uppercase hexadecimal rendering, mirroring the
structure of `Nat.toDigitsCore`. -/
def hexUpperCore : Nat → Nat → List Char → List Char
  | 0, _, ds => ds
  | fuel + 1, n, ds =>
    let d := hexUpperDigit (n % 16)
    let n2 := n / 16
    if n2 = 0 then d :: ds else hexUpperCore fuel n2 (d :: ds)

/-- Uppercase hexadecimal rendering of a natural number (no prefix). -/
def natHexUpper (n : Nat) : String := String.mk (hexUpperCore (n + 1) n [])

/-! ## Data model (cantools message/signal definitions used by the script) -/

/-- Byte order of a signal (DBC `little_endian` / `big_endian`). -/
inductive ByteOrder where
  | little
  | big
deriving DecidableEq, Repr

/-- One cantools signal layout, with the fields the script reads:
`start`/`length` in the DBC bit-numbering convention, the byte order,
signedness, linear scaling, the optional enumeration table (`choices`,
keyed by the raw integer as produced by unpacking, i.e. sign-interpreted
for signed signals), and the optional unit string. -/
structure Signal where
  name : String
  start : Nat
  length : Nat
  byteOrder : ByteOrder
  isSigned : Bool
  scale : ℚ
  offset : ℚ
  choices : Option (List (Int × String))
  unit : Option String
deriving DecidableEq, Repr

/-- One cantools message definition: frame id, name, declared byte length
and the signals. Multiplexed and container messages are out of scope (the
spec excludes them and no claim mentions them). -/
structure Message where
  frameId : Nat
  name : String
  byteLength : Nat
  signals : List Signal
deriving DecidableEq, Repr

/-- The loaded DBC database as the script uses it: `db.messages`, searched
linearly, first match wins (source lines 84-88). -/
abbrev Database := List Message

/-- The linear first-match lookup of source lines 84-88. -/
def lookupMessage (db : Database) (canId : Int) : Option Message :=
  db.find? (fun m => ((m.frameId : Int)) == canId)

/-! ## Bit extractor (cantools unpacking semantics) -/

/-- Byte `i` of a payload (0 beyond the end; extraction only reads bytes that
exist once the payload is padded to the declared length). -/
def byteAt (data : List Nat) (i : Nat) : Nat := data.getD i 0

/-- Bit at absolute little-endian position `p`: bit `p % 8` (LSB numbering)
of byte `p / 8`. -/
def bitAtLE (data : List Nat) (p : Nat) : Nat := byteAt data (p / 8) / 2 ^ (p % 8) % 2

/-- Bit at MSB-first linear position `q`: bit `7 - q % 8` of byte `q / 8`. -/
def bitAtBE (data : List Nat) (q : Nat) : Nat := byteAt data (q / 8) / 2 ^ (7 - q % 8) % 2

/-- Little-endian extraction: the field's least significant bit sits at
absolute position `start` of the payload viewed as a little-endian integer. -/
def extractLE (data : List Nat) (start len : Nat) : Nat :=
  (List.range len).foldl (fun acc i => acc + bitAtLE data (start + i) * 2 ^ i) 0

/-- Big-endian (Motorola) extraction, MSB first along the descending sawtooth
order, starting from MSB-first linear position `mstart`. -/
def extractBE (data : List Nat) (mstart len : Nat) : Nat :=
  (List.range len).foldl (fun acc i => 2 * acc + bitAtBE data (mstart + i)) 0

/-- MSB-first linear position of a big-endian signal's DBC start bit
(bit `b` of byte `i`, `b` counted LSB=0, maps to `8*i + (7-b)`). -/
def msbStart (s : Signal) : Nat := 8 * (s.start / 8) + (7 - s.start % 8)

/-- Raw unsigned extraction of one signal from a payload. -/
def extractCore (data : List Nat) (s : Signal) : Nat :=
  match s.byteOrder with
  | .little => extractLE data s.start s.length
  | .big => extractBE data (msbStart s) s.length

/-! ## Signal decoder (cantools `raw_to_scaled` with choices, and the
script's per-signal record construction) -/

/-- Two's-complement reinterpretation performed by the unpacker for signed
signals: a `length`-bit raw value with the sign bit set becomes negative. -/
def signedRaw (s : Signal) (raw : Nat) : Int :=
  if s.isSigned ∧ 2 ^ (s.length - 1) ≤ raw then (raw : Int) - 2 ^ s.length else (raw : Int)

/-- The linear scaling `raw * scale + offset` (double precision in Python,
exact rationals here). -/
def scaledValue (s : Signal) (raw : Nat) : ℚ :=
  s.scale * ((signedRaw s raw : Int) : ℚ) + s.offset

/-- A decoded Python value: a `NamedSignalValue` (its label) when an
enumeration entry matched, else the scaled number. The Python int/float
distinction of the number is not tracked (it only affects text rendering,
which no claim depends on). -/
inductive SigValue where
  | named (label : String)
  | num (q : ℚ)
deriving DecidableEq, Repr

/-- cantools value conversion with `decode_choices=True`, `scaling=True`:
look the (sign-interpreted) raw value up in `choices` if there are any,
otherwise produce the scaled number. -/
def convert (s : Signal) (raw : Nat) : SigValue :=
  match s.choices with
  | some cs =>
    match cs.lookup (signedRaw s raw) with
    | some label => SigValue.named label
    | none => SigValue.num (scaledValue s raw)
  | none => SigValue.num (scaledValue s raw)

/-- Truthiness of `signal.choices` in Python: `None` and the empty dict are
falsy (source lines 109-110 branch on this, not on whether a choice
matched). -/
def choicesTruthy (s : Signal) : Bool :=
  match s.choices with
  | none => false
  | some cs => !cs.isEmpty

/-- Best-effort text of a Python number (`str(value)`): integral rationals
are rendered float-style. The exact digits of non-integral values are not
load-bearing for any claim. -/
def pyNumStr (q : ℚ) : String :=
  if q.den = 1 then toString q.num ++ ".0" else toString q.num ++ "/" ++ toString q.den

/-- Python `str(value)` on a decoded value: a `NamedSignalValue` prints its
label. -/
def sigValueStr : SigValue → String
  | SigValue.named l => l
  | SigValue.num q => pyNumStr q

/-- Python `signal.unit or ''` (source line 111). -/
def pyUnitStr (u : Option String) : String :=
  match u with
  | none => ""
  | some x => x

/-! ## Output records -/

/-- One output record (the dict appended to `decoded_data`), before the
output formatting of `save_decoded_data`. -/
structure Record where
  timestamp : String
  can_id : String
  message_name : String
  signal_name : Option String
  raw_value : Option SigValue
  physical_value : Option ℚ
  state : Option String
  unit : Option String
deriving DecidableEq, Repr

/-- The record for a frame id with no DBC message (source lines 92-101). -/
def unknownRecord (ts : String) (canId : Int) : Record :=
  { timestamp := ts
    can_id := pyHex canId
    message_name := "Unknown_" ++ String.mk (((pyHexChars canId).drop 2).map Char.toUpper)
    signal_name := none
    raw_value := none
    physical_value := none
    state := none
    unit := none }

/-- The whole-message fallback record appended when an exception escapes the
per-signal loop (source lines 125-134). -/
def fallbackRecord (ts : String) (canId : Int) (mname : String) : Record :=
  { timestamp := ts
    can_id := pyHex canId
    message_name := mname
    signal_name := none
    raw_value := none
    physical_value := none
    state := none
    unit := none }

/-- The per-signal record of source lines 107-122; `none` models the
`TypeError` Python would raise at `float(value)` if the signal found by name
has falsy `choices` while the decoded value is a `NamedSignalValue` (only
reachable with duplicate signal names). -/
def mkSignalRecord (ts : String) (canId : Int) (mname : String) (sig : Signal)
    (sname : String) (v : SigValue) : Option Record :=
  if choicesTruthy sig then
    some { timestamp := ts
           can_id := pyHex canId
           message_name := mname
           signal_name := some sname
           raw_value := some v
           physical_value := none
           state := some (sigValueStr v)
           unit := some (pyUnitStr sig.unit) }
  else
    match v with
    | SigValue.num q =>
      some { timestamp := ts
             can_id := pyHex canId
             message_name := mname
             signal_name := some sname
             raw_value := some v
             physical_value := some q
             state := none
             unit := some (pyUnitStr sig.unit) }
    | SigValue.named _ => none

/-- Python `message.get_signal_by_name(name)`: first signal with that name,
`KeyError` (here `none`) if absent. -/
def getSignalByName (msg : Message) (n : String) : Option Signal :=
  msg.signals.find? (fun t => t.name == n)

/-- The loop over `decoded_signals.items()` (source lines 107-122) inside the
`try` of lines 105-134: each entry appends one record; an exception
(`KeyError` from the name lookup, or `TypeError` from `float`) aborts the
loop, keeps the records already appended, and appends the single fallback
record of lines 125-134. -/
def decodeSignalsLoop (ts : String) (canId : Int) (msg : Message) :
    List (String × SigValue) → List Record
  | [] => []
  | (n, v) :: rest =>
    match getSignalByName msg n with
    | none => [fallbackRecord ts canId msg.name]
    | some sig =>
      match mkSignalRecord ts canId msg.name sig n v with
      | none => [fallbackRecord ts canId msg.name]
      | some r => r :: decodeSignalsLoop ts canId msg rest

/-! ## Frame decoder: `message.decode(data_bytes, allow_truncated=True)`

Modelled from the cantools decode path the script invokes
(`decode_data` with `allow_truncated=True` and the default
`allow_excess=True`): a short payload is right-padded to the declared
length (padding bytes never reach a surviving signal), an over-long payload
is cut to the declared length, every signal is unpacked, and then — when the
payload was short — every signal whose bit span is not entirely inside the
actually received bytes is removed from the result. The iteration order of
the surviving entries is modelled as the declaration order; no claim settled
here depends on the order. -/

/-- Sequential start bit used by cantools' truncation filter: the position of
the field's first bit in its linear traversal. -/
def seqStart (s : Signal) : Nat :=
  match s.byteOrder with
  | .little => s.start
  | .big => msbStart s

/-- Whether a signal's bit span lies entirely inside `validBits` bits. -/
def fitsBits (s : Signal) (validBits : Nat) : Bool :=
  seqStart s + s.length ≤ validBits

/-- cantools keeps a signal iff the payload was not truncated, or the
signal's span lies inside the received bytes. -/
def keepSignal (msg : Message) (data : List Nat) (s : Signal) : Bool :=
  if data.length < msg.byteLength then fitsBits s (8 * data.length) else true

/-- The signals surviving the truncation filter, in declared order. -/
def keptSignals (msg : Message) (data : List Nat) : List Signal :=
  msg.signals.filter (keepSignal msg data)

/-- The payload after cantools' length adjustment: right-padded with `0xFF`
when short, cut to the declared length when long. -/
def paddedData (msg : Message) (data : List Nat) : List Nat :=
  if data.length < msg.byteLength then
    data ++ List.replicate (msg.byteLength - data.length) 255
  else data.take msg.byteLength

/-- The decoded `(name, value)` entries returned by
`message.decode(data, allow_truncated=True)`. -/
def cantoolsDecode (msg : Message) (data : List Nat) : List (String × SigValue) :=
  (keptSignals msg data).map
    (fun s => (s.name, convert s (extractCore (paddedData msg data) s)))

/-- The per-frame decode step of `decode_can_data` (source lines 83-134):
lookup, the unknown-id record, or the per-signal loop guarded by the
blanket `except`. -/
def decodeFrame (db : Database) (ts : String) (canId : Int) (data : List Nat) :
    List Record :=
  match lookupMessage db canId with
  | none => [unknownRecord ts canId]
  | some msg => decodeSignalsLoop ts canId msg (cantoolsDecode msg data)

/-- The fully populated record that the loop produces for a signal `s`
decoded to raw value `raw` (used to state what `decodeFrame` returns). -/
def recordFor (ts : String) (canId : Int) (mname : String) (s : Signal) (raw : Nat) :
    Record :=
  { timestamp := ts
    can_id := pyHex canId
    message_name := mname
    signal_name := some s.name
    raw_value := some (convert s raw)
    physical_value := if choicesTruthy s then none else some (scaledValue s raw)
    state := if choicesTruthy s then some (sigValueStr (convert s raw)) else none
    unit := some (pyUnitStr s.unit) }

/-! ## Output formatting (`save_decoded_data`, source lines 147-164) -/

/-- Python `value or 'N/A'` on an optional string: `None` and the empty
string both render as `N/A`. -/
def pyOrNA : Option String → String
  | none => "N/A"
  | some s => if s = "" then "N/A" else s

/-- Zero-padded three-digit fraction. -/
def pad3 (n : Nat) : String :=
  if n < 10 then "00" ++ toString n
  else if n < 100 then "0" ++ toString n
  else toString n

/-- Round to the nearest integer, ties to even (the rounding of Python's
fixed-point formatting; the additional binary-double rounding of the real
program is not modelled — no claim depends on formatted digits). -/
def roundHalfEven (q : ℚ) : Int :=
  let f := Int.floor q
  let r := q - (f : ℚ)
  if r < 1 / 2 then f
  else if 1 / 2 < r then f + 1
  else if f % 2 = 0 then f else f + 1

/-- Python `f"{x:.3f}"` (best effort, see `roundHalfEven`). -/
def fixed3 (q : ℚ) : String :=
  let m := (roundHalfEven (|q| * 1000)).toNat
  (if q < 0 then "-" else "") ++ toString (m / 1000) ++ "." ++ pad3 (m % 1000)

/-- One written CSV row, all fields as text. -/
structure OutRow where
  timestamp : String
  can_id : String
  message_name : String
  signal_name : String
  raw_value : String
  physical_value : String
  state : String
  unit : String
deriving DecidableEq, Repr

/-- The output formatting of source lines 155-164. -/
def renderRecord (r : Record) : OutRow :=
  { timestamp := r.timestamp
    can_id := r.can_id
    message_name := r.message_name
    signal_name := pyOrNA r.signal_name
    raw_value := match r.raw_value with
      | none => "N/A"
      | some v => sigValueStr v
    physical_value := match r.physical_value with
      | none => "N/A"
      | some q => fixed3 q
    state := pyOrNA r.state
    unit := match r.unit with
      | none => ""
      | some u => u }

/-! ## Row pipeline (`decode_can_data`, source lines 41-145) -/

/-- One parsed CSV row as handed over by `csv.DictReader`. -/
structure Row where
  timestamp : String
  can_id : String
  data : String
deriving DecidableEq, Repr

/-- Outcome of processing one row. -/
inductive RowResult where
  | skipped
  | decoded (records : List Record)
deriving DecidableEq, Repr

/-- The per-row logic of source lines 55-134: clean timestamp and id, skip on
an empty field (the raw `data` is tested, not its cleaned form), parse the
id, normalise the data field to bytes, then decode the frame. -/
def processRow (db : Database) (row : Row) : RowResult :=
  let ts := cleanField row.timestamp
  let cid := cleanField row.can_id
  if ts = "" ∨ cid = "" ∨ row.data = "" then RowResult.skipped
  else
    match parseCanId cid with
    | none => RowResult.skipped
    | some canId =>
      match normalize_data_field row.data with
      | Except.error _ => RowResult.skipped
      | Except.ok norm => RowResult.decoded (decodeFrame db ts canId (hexToBytes norm.data))

/-- Accumulated outcome of a run: the decoded records and the two counters
reported by the summary log line. -/
structure RunResult where
  records : List Record
  rowCount : Nat
  skippedRows : Nat
deriving DecidableEq, Repr

/-- The required header fields of source line 50. -/
def requiredColumns : List String := ["timestamp", "can_id", "data"]

/-- The batch pipeline of `decode_can_data`: the header check of lines 50-51
aborts the whole run (`ValueError` re-raised by lines 143-145) before any
row is read; otherwise every row is processed in order. -/
def runPipeline (db : Database) (header : List String) (rows : List Row) :
    Except String RunResult :=
  if ¬ (∀ c ∈ requiredColumns, c ∈ header) then
    Except.error "CSV must have columns: timestamp,can_id,data"
  else
    Except.ok (rows.foldl
      (fun acc row =>
        match processRow db row with
        | RowResult.skipped =>
          { acc with rowCount := acc.rowCount + 1, skippedRows := acc.skippedRows + 1 }
        | RowResult.decoded recs =>
          { acc with rowCount := acc.rowCount + 1, records := acc.records ++ recs })
      { records := [], rowCount := 0, skippedRows := 0 })

/-! ## Concrete fixtures used by counterexamples and witnesses -/

/-- An 8-bit unsigned little-endian signal at bits 0..7, identity scaling. -/
def sigA : Signal := ⟨"A", 0, 8, ByteOrder.little, false, 1, 0, none, none⟩

/-- An 8-bit unsigned little-endian signal at bits 8..15, identity scaling. -/
def sigB : Signal := ⟨"B", 8, 8, ByteOrder.little, false, 1, 0, none, none⟩

/-- A two-byte message with the two signals `A` and `B`. -/
def msgAB : Message := ⟨1, "M", 2, [sigA, sigB]⟩

/-- A database containing only `msgAB`. -/
def dbAB : Database := [msgAB]

/-- An 8-bit signal sitting entirely in the second byte. -/
def sigT : Signal := ⟨"S", 8, 8, ByteOrder.little, false, 1, 0, none, none⟩

/-- A two-byte message whose only signal is out of range of a 1-byte payload. -/
def msgT : Message := ⟨7, "T", 2, [sigT]⟩

/-- A database containing only `msgT`. -/
def dbT : Database := [msgT]

/-- An 8-bit signal with the enumeration `{2: "FAULT"}`. -/
def sigC : Signal := ⟨"C", 0, 8, ByteOrder.little, false, 1, 0, some [(2, "FAULT")], some "u"⟩

/-- A one-byte message whose only signal is `sigC`. -/
def msgC : Message := ⟨9, "C", 1, [sigC]⟩

/-- A database containing only `msgC`. -/
def dbC : Database := [msgC]

/-- The spec's example signal: `RPM`, 16-bit unsigned little-endian at bit 0,
scale 0.25. -/
def sigRPM : Signal := ⟨"RPM", 0, 16, ByteOrder.little, false, 1 / 4, 0, none, some "rpm"⟩

/-- The spec's example message `EngineData` with frame id `0x123`. -/
def msgRPM : Message := ⟨291, "EngineData", 8, [sigRPM]⟩

/-- A database containing only `msgRPM`. -/
def dbRPM : Database := [msgRPM]

end CAN

deriving instance DecidableEq for Except

namespace CAN

/-! ## Helper lemmas -/

/-- Characters of a rebuilt string. -/
theorem mk_data (s : String) : String.mk s.data = s := by
  cases s
  rfl

/-- A nonempty string has nonempty character data. -/
theorem data_ne_nil {s : String} (h : s ≠ "") : s.data ≠ [] := by
  intro hd
  exact h (by rw [← mk_data s, hd])

/-- Hexadecimal digits are not whitespace. -/
theorem hex_not_space {c : Char} (h : isHexChar c = true) : isPySpace c = false := by
  by_contra hcon
  rw [Bool.not_eq_false] at hcon
  simp only [isPySpace, Bool.or_eq_true, beq_iff_eq] at hcon
  rcases hcon with ((((h1 | h1) | h1) | h1) | h1) | h1 <;> subst h1 <;>
    exact absurd h (by decide)

/-- Hexadecimal digits are not double quotes. -/
theorem hex_ne_quote {c : Char} (h : isHexChar c = true) : (c == '"') = false := by
  by_contra hcon
  rw [Bool.not_eq_false, beq_iff_eq] at hcon
  subst hcon
  exact absurd h (by decide)

/-- Hexadecimal digits are neither `x` nor `X`. -/
theorem hex_ne_x {c : Char} (h : isHexChar c = true) : c ≠ 'x' ∧ c ≠ 'X' := by
  constructor <;> intro h1 <;> subst h1 <;> exact absurd h (by decide)

/-- `dropWhile` is the identity when no element satisfies the predicate. -/
theorem dropWhile_eq_self {p : Char → Bool} :
    ∀ {l : List Char}, (∀ c ∈ l, p c = false) → l.dropWhile p = l := by
  intro l h
  cases l with
  | nil => rfl
  | cons a l =>
    rw [List.dropWhile_cons, h a (List.mem_cons_self a l)]
    simp

/-- Stripping surrounding whitespace does nothing to a whitespace-free list. -/
theorem stripChars_eq_self {l : List Char} (h : ∀ c ∈ l, isPySpace c = false) :
    stripChars l = l := by
  unfold stripChars
  rw [dropWhile_eq_self h, dropWhile_eq_self (by simpa using h), List.reverse_reverse]

/-- Deleting `0x` substrings does nothing to a list without `x` or `X`. -/
theorem remove0x_eq_self :
    ∀ (l : List Char), (∀ c ∈ l, c ≠ 'x' ∧ c ≠ 'X') → remove0x l = l := by
  have key : ∀ (n : Nat) (l : List Char), l.length ≤ n →
      (∀ c ∈ l, c ≠ 'x' ∧ c ≠ 'X') → remove0x l = l := by
    intro n
    induction n with
    | zero =>
      intro l hl _
      have : l = [] := List.eq_nil_of_length_eq_zero (Nat.le_zero.mp hl)
      subst this
      rfl
    | succ n ih =>
      intro l hl hx
      match l with
      | [] => rfl
      | [c] => rfl
      | c :: d :: rest =>
        have hd : d ≠ 'x' ∧ d ≠ 'X' := hx d (by simp)
        simp only [remove0x]
        rw [if_neg (by tauto)]
        congr 1
        exact ih (d :: rest) (by simpa using Nat.lt_succ_iff.mp (by simpa using hl))
          (fun c hc => hx c (List.mem_cons_of_mem _ hc))
  exact fun l => key l.length l (Nat.le_refl _)

/-- With unique signal names, the by-name search finds the signal itself. -/
theorem find?_name_nodup :
    ∀ (l : List Signal), (l.map Signal.name).Nodup →
      ∀ {s : Signal}, s ∈ l → l.find? (fun t => t.name == s.name) = some s := by
  intro l
  induction l with
  | nil =>
    intro _ s hs
    cases hs
  | cons a l ih =>
    intro hnd s hs
    simp only [List.map_cons, List.nodup_cons] at hnd
    rcases List.mem_cons.mp hs with h1 | h2
    · subst h1
      rw [List.find?_cons_of_pos _ (by simp)]
    · have hne : (a.name == s.name) = false := by
        simp only [beq_eq_false_iff_ne, ne_eq]
        intro he
        exact hnd.1 (he ▸ List.mem_map_of_mem Signal.name h2)
      rw [List.find?_cons_of_neg _ (by simp [hne])]
      exact ih hnd.2 h2

/-- With unique signal names, `get_signal_by_name` returns the signal itself. -/
theorem getSignalByName_nodup (msg : Message)
    (hnd : (msg.signals.map Signal.name).Nodup) {s : Signal} (hs : s ∈ msg.signals) :
    getSignalByName msg s.name = some s :=
  find?_name_nodup msg.signals hnd hs

/-- The per-signal record construction never raises for a signal paired with
its own converted value. -/
theorem mkSignalRecord_self (ts : String) (cid : Int) (mname : String)
    (s : Signal) (raw : Nat) :
    mkSignalRecord ts cid mname s s.name (convert s raw) =
      some (recordFor ts cid mname s raw) := by
  cases hc : s.choices with
  | none => simp [mkSignalRecord, recordFor, convert, choicesTruthy, hc]
  | some cs =>
    cases cs with
    | nil => simp [mkSignalRecord, recordFor, convert, choicesTruthy, hc, List.lookup]
    | cons hd tl =>
      simp only [mkSignalRecord, recordFor, choicesTruthy, hc, List.isEmpty_cons,
        Bool.not_false, if_true]

/-- The decode loop over well-formed entries of a uniquely-named message is a
map producing one fully populated record per signal. -/
theorem decodeSignalsLoop_map (ts : String) (cid : Int) (msg : Message)
    (hnd : (msg.signals.map Signal.name).Nodup) (g : Signal → Nat) :
    ∀ l : List Signal, (∀ s ∈ l, s ∈ msg.signals) →
      decodeSignalsLoop ts cid msg (l.map (fun s => (s.name, convert s (g s)))) =
        l.map (fun s => recordFor ts cid msg.name s (g s)) := by
  intro l
  induction l with
  | nil => intro _; rfl
  | cons a l ih =>
    intro hsub
    have ha : a ∈ msg.signals := hsub a (List.mem_cons_self a l)
    simp only [List.map_cons, decodeSignalsLoop, getSignalByName_nodup msg hnd ha,
      mkSignalRecord_self]
    rw [ih (fun s hs => hsub s (List.mem_cons_of_mem _ hs))]

/-- For a known, uniquely-named message, the per-frame decode step returns
exactly one fully populated record per signal surviving the truncation
filter, in order. -/
theorem decodeFrame_known (db : Database) (ts : String) (cid : Int)
    (data : List Nat) (msg : Message) (h : lookupMessage db cid = some msg)
    (hnd : (msg.signals.map Signal.name).Nodup) :
    decodeFrame db ts cid data = (keptSignals msg data).map
      (fun s => recordFor ts cid msg.name s (extractCore (paddedData msg data) s)) := by
  unfold decodeFrame
  rw [h]
  unfold cantoolsDecode
  exact decodeSignalsLoop_map ts cid msg hnd _ (keptSignals msg data)
    (fun s hs => List.mem_of_mem_filter hs)

/-- Counting name-matches in a filtered uniquely-named list. -/
theorem countP_name_filter :
    ∀ (L : List Signal), (L.map Signal.name).Nodup →
      ∀ (p : Signal → Bool) (s : Signal), s ∈ L →
        (L.filter p).countP (fun t => t.name == s.name) =
          if s ∈ L.filter p then 1 else 0 := by
  intro L
  induction L with
  | nil =>
    intro _ p s hs
    cases hs
  | cons a L ih =>
    intro hnd p s hs
    simp only [List.map_cons, List.nodup_cons] at hnd
    have hzero : ∀ t ∈ L.filter p, ¬ ((t.name == a.name) = true) := by
      intro t ht hteq
      rw [beq_iff_eq] at hteq
      exact hnd.1 (hteq ▸ List.mem_map_of_mem Signal.name (List.mem_of_mem_filter ht))
    rcases List.mem_cons.mp hs with h1 | h2
    · rw [h1]
      cases hpa : p a with
      | false =>
        rw [List.filter_cons_of_neg (by simp [hpa])]
        rw [if_neg (fun hmem => hnd.1
          (List.mem_map_of_mem Signal.name (List.mem_of_mem_filter hmem)))]
        exact List.countP_eq_zero.mpr hzero
      | true =>
        rw [List.filter_cons_of_pos (by simp [hpa])]
        rw [if_pos (List.mem_cons_self _ _)]
        rw [List.countP_cons_of_pos _ _ (by simp)]
        rw [List.countP_eq_zero.mpr hzero]
    · have hne : (a.name == s.name) = false := by
        simp only [beq_eq_false_iff_ne, ne_eq]
        intro he
        exact hnd.1 (he ▸ List.mem_map_of_mem Signal.name h2)
      have hsa : s ≠ a := by
        intro he
        rw [he] at hne
        simp at hne
      cases hpa : p a with
      | false =>
        rw [List.filter_cons_of_neg (by simp [hpa])]
        exact ih hnd.2 p s h2
      | true =>
        rw [List.filter_cons_of_pos (by simp [hpa])]
        rw [List.countP_cons_of_neg _ _ (by simp [hne])]
        rw [ih hnd.2 p s h2]
        congr 1
        simp [List.mem_cons, hsa]

/-- Lowercase and uppercase hexadecimal digits agree up to `Char.toUpper`. -/
theorem digitChar_toUpper : ∀ m, m < 16 → (Nat.digitChar m).toUpper = hexUpperDigit m := by
  decide

/-- Mapping `Char.toUpper` over the lowercase digit loop gives the uppercase
digit loop. -/
theorem toDigitsCore_toUpper :
    ∀ (fuel n : Nat) (ds : List Char),
      (Nat.toDigitsCore 16 fuel n ds).map Char.toUpper =
        hexUpperCore fuel n (ds.map Char.toUpper) := by
  intro fuel
  induction fuel with
  | zero => intro n ds; rfl
  | succ fuel ih =>
    intro n ds
    simp only [Nat.toDigitsCore, hexUpperCore]
    by_cases h : n / 16 = 0
    · simp [h, digitChar_toUpper (n % 16) (Nat.mod_lt _ (by norm_num))]
    · simp only [h, if_false, ih]
      rw [List.map_cons, digitChar_toUpper (n % 16) (Nat.mod_lt _ (by norm_num))]

/-- The uppercased lowercase hexadecimal rendering is the uppercase one. -/
theorem toDigits_toUpper (n : Nat) :
    (Nat.toDigits 16 n).map Char.toUpper = hexUpperCore (n + 1) n [] := by
  unfold Nat.toDigits
  rw [toDigitsCore_toUpper]
  rfl

/-- Every record produced by `mkSignalRecord` carries the given timestamp. -/
theorem mkSignalRecord_timestamp {ts : String} {cid : Int} {mname : String}
    {sig : Signal} {sname : String} {v : SigValue} {r : Record}
    (h : mkSignalRecord ts cid mname sig sname v = some r) : r.timestamp = ts := by
  unfold mkSignalRecord at h
  split at h
  · cases h
    rfl
  · split at h
    · cases h
      rfl
    · cases h

/-- Every record produced by the decode loop carries the given timestamp. -/
theorem decodeSignalsLoop_timestamp (ts : String) (cid : Int) (msg : Message) :
    ∀ (entries : List (String × SigValue)),
      ∀ r ∈ decodeSignalsLoop ts cid msg entries, r.timestamp = ts := by
  intro entries
  induction entries with
  | nil => simp [decodeSignalsLoop]
  | cons e rest ih =>
    obtain ⟨n, v⟩ := e
    intro r hr
    cases hg : getSignalByName msg n with
    | none =>
      simp only [decodeSignalsLoop, hg, List.mem_singleton] at hr
      subst hr
      rfl
    | some sig =>
      cases hm : mkSignalRecord ts cid msg.name sig n v with
      | none =>
        simp only [decodeSignalsLoop, hg, hm, List.mem_singleton] at hr
        subst hr
        rfl
      | some r0 =>
        simp only [decodeSignalsLoop, hg, hm] at hr
        rcases List.mem_cons.mp hr with h1 | h2
        · rw [h1]
          exact mkSignalRecord_timestamp hm
        · exact ih r h2

/-- Every record produced by the per-frame decode step carries the given
timestamp. -/
theorem decodeFrame_timestamp (db : Database) (ts : String) (cid : Int)
    (data : List Nat) : ∀ r ∈ decodeFrame db ts cid data, r.timestamp = ts := by
  intro r hr
  cases hl : lookupMessage db cid with
  | none =>
    simp only [decodeFrame, hl, List.mem_singleton] at hr
    subst hr
    rfl
  | some msg =>
    simp only [decodeFrame, hl] at hr
    exact decodeSignalsLoop_timestamp ts cid msg _ r hr

/-! ## Claim theorems -/

/-- C5, counterexample: the prefix test of source line 68 is the
case-sensitive `startswith('0x')`, so `'0x1A2'` parses to 418 but `'0X1A2'`
is handed to the decimal parser and rejected — the claim's case-insensitive
reading is false. -/
theorem c5_counterexample : parseCanId "0x1A2" = some 418 ∧ parseCanId "0X1A2" = none := by
  decide

/-- C5, amended: the id is parsed as hexadecimal exactly when it begins with
the case-sensitive lowercase prefix `0x`; an id beginning `0X` always fails
the decimal parse and the row is skipped; any row whose id text fails to
parse is skipped without aborting the batch. -/
theorem c5_amended (t : String) (db : Database) (row : Row) :
    (t.data ≠ [] → t.data.all isHexChar = true →
      parseCanId ("0x" ++ t) = some ((hexNat t.data : Nat) : Int)) ∧
    parseCanId ("0X" ++ t) = none ∧
    (cleanField row.timestamp ≠ "" → cleanField row.can_id ≠ "" → row.data ≠ "" →
      parseCanId (cleanField row.can_id) = none →
      processRow db row = RowResult.skipped) := by
  refine ⟨?_, ?_, ?_⟩
  · intro h1 h2
    unfold parseCanId
    have hd : ("0x" ++ t).data = '0' :: 'x' :: t.data := by cases t; rfl
    rw [hd]
    unfold parseCanIdChars
    rw [show startsWith0x ('0' :: 'x' :: t.data) = true from rfl]
    rw [if_pos rfl]
    rw [show ('0' :: 'x' :: t.data).drop 2 = t.data from rfl]
    rw [if_pos ⟨h1, h2⟩]
  · unfold parseCanId
    have hd : ("0X" ++ t).data = '0' :: 'X' :: t.data := by cases t; rfl
    rw [hd]
    unfold parseCanIdChars
    rw [show startsWith0x ('0' :: 'X' :: t.data) = false from rfl]
    simp only [Bool.false_eq_true, if_false]
    have hdec : decDigits ('0' :: 'X' :: t.data) = none := by
      unfold decDigits
      rw [if_neg]
      rintro ⟨-, hall⟩
      rw [List.all_eq_true] at hall
      exact absurd (hall 'X' (by simp)) (by decide)
    simp [pyIntDecChars, hdec]
  · intro h1 h2 h3 hp
    simp only [processRow]
    rw [if_neg (by simp [h1, h2, h3])]
    simp only [hp]

/-- C5, witness: the amended theorem at `t = "1A2"` and a row whose id text
`zz` is non-numeric. -/
theorem c5_amended_witness :
    parseCanId ("0x" ++ "1A2") = some 418 ∧ parseCanId ("0X" ++ "1A2") = none ∧
      processRow [] ⟨"t", "zz", "AA"⟩ = RowResult.skipped := by
  refine ⟨?_, (c5_amended "1A2" [] ⟨"t", "zz", "AA"⟩).2.1, ?_⟩
  · have h := (c5_amended "1A2" [] ⟨"t", "zz", "AA"⟩).1 (by decide) (by decide)
    rw [h]
    decide
  · exact (c5_amended "1A2" [] ⟨"t", "zz", "AA"⟩).2.2 (by decide) (by decide)
      (by decide) (by decide)

/-- C6, counterexample: the timestamp field `' "t1" '` is accepted but every
record of the row carries the stripped, de-quoted `t1`, not the original
field text — byte-for-byte preservation is false. -/
theorem c6_counterexample :
    processRow [] ⟨" \"t1\" ", "5", "AA"⟩ = RowResult.decoded [unknownRecord "t1" 5] ∧
      (unknownRecord "t1" 5).timestamp ≠ " \"t1\" " := by
  exact ⟨by decide, by decide⟩

/-- C6, amended: every record produced for an accepted row carries, unchanged,
the timestamp field after stripping surrounding whitespace and removing all
double-quote characters (identical to the raw field only when that field has
no surrounding whitespace or quotes). -/
theorem c6_amended (db : Database) (row : Row) (recs : List Record)
    (h : processRow db row = RowResult.decoded recs) :
    ∀ r ∈ recs, r.timestamp = cleanField row.timestamp := by
  intro r hr
  simp only [processRow] at h
  split at h
  · cases h
  · split at h
    · cases h
    · split at h
      · cases h
      · obtain rfl : _ = recs := by injection h
        exact decodeFrame_timestamp db _ _ _ r hr

/-- C6, witness: the amended theorem on a concrete accepted row. -/
theorem c6_amended_witness :
    processRow [] ⟨"u", "5", "AA"⟩ = RowResult.decoded [unknownRecord "u" 5] ∧
      (∀ r ∈ [unknownRecord "u" 5], r.timestamp = cleanField "u") :=
  ⟨by decide, c6_amended [] ⟨"u", "5", "AA"⟩ [unknownRecord "u" 5] (by decide)⟩

/-- C7: a frame id absent from the schema yields exactly one record, named
`Unknown_` followed by the uppercase hexadecimal id, with `signal_name`,
`raw_value`, `physical_value` and `state` all absent and each rendered as
`N/A` by the output formatter. -/
theorem c7_unknown_id (db : Database) (ts : String) (id : Nat) (data : List Nat)
    (h : lookupMessage db (id : Int) = none) :
    decodeFrame db ts (id : Int) data = [unknownRecord ts (id : Int)] ∧
    (unknownRecord ts (id : Int)).message_name = "Unknown_" ++ natHexUpper id ∧
    (unknownRecord ts (id : Int)).signal_name = none ∧
    (unknownRecord ts (id : Int)).raw_value = none ∧
    (unknownRecord ts (id : Int)).physical_value = none ∧
    (unknownRecord ts (id : Int)).state = none ∧
    (renderRecord (unknownRecord ts (id : Int))).signal_name = "N/A" ∧
    (renderRecord (unknownRecord ts (id : Int))).raw_value = "N/A" ∧
    (renderRecord (unknownRecord ts (id : Int))).physical_value = "N/A" ∧
    (renderRecord (unknownRecord ts (id : Int))).state = "N/A" := by
  refine ⟨by simp [decodeFrame, h], ?_, rfl, rfl, rfl, rfl, rfl, rfl, rfl, rfl⟩
  show "Unknown_" ++ String.mk (((pyHexChars (id : Int)).drop 2).map Char.toUpper) = _
  have h1 : pyHexChars (id : Int) = '0' :: 'x' :: Nat.toDigits 16 id := by
    unfold pyHexChars
    rw [if_neg (by exact Int.not_lt.mpr (Int.natCast_nonneg id))]
    rw [Int.toNat_natCast]
  rw [h1]
  rw [show ('0' :: 'x' :: Nat.toDigits 16 id).drop 2 = Nat.toDigits 16 id from rfl]
  rw [toDigits_toUpper]
  rfl

/-- C7, witness: the spec's example, frame id `0x200` absent from the schema. -/
theorem c7_unknown_id_witness :
    lookupMessage [] ((512 : Nat) : Int) = none ∧
      decodeFrame [] "t" ((512 : Nat) : Int) [] = [unknownRecord "t" ((512 : Nat) : Int)] ∧
      (unknownRecord "t" ((512 : Nat) : Int)).message_name = "Unknown_200" :=
  ⟨by decide, (c7_unknown_id [] "t" 512 [] (by decide)).1, by decide⟩

/-- C8, counterexample: the empty string has even length and (vacuously) only
hexadecimal digits, yet normalising it fails the `^[0-9A-Fa-f]+$` check
instead of returning it unchanged. -/
theorem c8_counterexample :
    ("".length % 2 = 0 ∧ ∀ c ∈ ("" : String).data, isHexChar c = true) ∧
      normalize_data_field "" ≠ Except.ok "" := by
  exact ⟨⟨rfl, by simp⟩, by decide⟩

/-- C8, amended: normalising is the identity on every nonempty, even-length
string of hexadecimal digits; the empty string, though of even length, is
rejected. -/
theorem c8_amended (s : String) (h0 : s ≠ "") (h1 : ∀ c ∈ s.data, isHexChar c = true)
    (h2 : s.length % 2 = 0) : normalize_data_field s = Except.ok s := by
  have hsl : s.length = s.data.length := by cases s; rfl
  rw [hsl] at h2
  have hcore : coreNorm s = s.data := by
    have e1 : stripChars s.data = s.data :=
      stripChars_eq_self (fun c hc => hex_not_space (h1 c hc))
    have e2 : s.data.filter (fun c => !(c == '"')) = s.data :=
      List.filter_eq_self.mpr (fun c hc => by simp [hex_ne_quote (h1 c hc)])
    have e3 : s.data.filter (fun c => !(isPySpace c)) = s.data :=
      List.filter_eq_self.mpr (fun c hc => by simp [hex_not_space (h1 c hc)])
    unfold coreNorm
    rw [e1, e2, e3]
    exact remove0x_eq_self _ (fun c hc => hex_ne_x (h1 c hc))
  have hnc : ¬(s.data = [] ∨ ¬ (s.data.all isHexChar = true)) := by
    rintro (hnil | hall)
    · exact data_ne_nil h0 hnil
    · exact hall (List.all_eq_true.mpr h1)
  simp only [normalize_data_field, hcore]
  rw [if_neg (not_not_intro h2), if_neg hnc, mk_data]

/-- C8, witness: the amended theorem at the already-normalised string `AB`. -/
theorem c8_amended_witness :
    ("AB" ≠ "" ∧ (∀ c ∈ ("AB" : String).data, isHexChar c = true) ∧ "AB".length % 2 = 0) ∧
      normalize_data_field "AB" = Except.ok "AB" :=
  ⟨⟨by decide, by decide, by decide⟩, c8_amended "AB" (by decide) (by decide) (by decide)⟩

/-- C9: a header missing any of `timestamp`, `can_id`, `data` makes the run
fail with the fatal error before any row is processed — the result is the
error for every row list, so no records and no counters ever materialise. -/
theorem c9_header_abort (db : Database) (header : List String) (rows : List Row)
    (h : "timestamp" ∉ header ∨ "can_id" ∉ header ∨ "data" ∉ header) :
    runPipeline db header rows =
      Except.error "CSV must have columns: timestamp,can_id,data" := by
  unfold runPipeline
  rw [if_pos]
  intro hall
  rcases h with h | h | h
  · exact h (hall _ (by simp [requiredColumns]))
  · exact h (hall _ (by simp [requiredColumns]))
  · exact h (hall _ (by simp [requiredColumns]))

/-- C9, witness: the spec's example, a header without `can_id`. -/
theorem c9_header_abort_witness :
    ("can_id" ∉ (["timestamp", "data"] : List String)) ∧
      runPipeline [] ["timestamp", "data"] [⟨"t", "1", "AA"⟩] =
        Except.error "CSV must have columns: timestamp,can_id,data" :=
  ⟨by decide, c9_header_abort [] ["timestamp", "data"] [⟨"t", "1", "AA"⟩]
    (Or.inr (Or.inl (by decide)))⟩

/-- C10: a row whose data field normalises to the empty string is skipped
(the empty normal form fails the nonemptiness part of the hex check despite
its even length), and every payload the row pipeline hands to the frame
decoder — the bytes of a successfully normalised field — is nonempty. -/
theorem c10_empty_payload (db : Database) (row : Row) :
    (coreNorm row.data = [] → processRow db row = RowResult.skipped) ∧
    (∀ s r : String, normalize_data_field s = Except.ok r → hexToBytes r.data ≠ []) := by
  constructor
  · intro hc
    have hn : normalize_data_field row.data = Except.error "Invalid hex characters" := by
      simp [normalize_data_field, hc]
    simp only [processRow, hn]
    split
    · rfl
    · cases parseCanId (cleanField row.can_id) <;> rfl
  · intro s r hok
    simp only [normalize_data_field] at hok
    split at hok
    · cases hok
    · split at hok
      · cases hok
      · rename_i hcond1 hcond2
        obtain rfl : String.mk (coreNorm s) = r := by injection hok
        have hne : coreNorm s ≠ [] := fun hnil => hcond2 (Or.inl hnil)
        have heven : (coreNorm s).length % 2 = 0 := by
          by_contra hodd
          exact hcond1 hodd
        match hm : coreNorm s with
        | [] => exact absurd hm hne
        | [c] =>
          rw [hm] at heven
          simp at heven
        | a :: b :: rest =>
          show hexToBytes (a :: b :: rest) ≠ []
          simp [hexToBytes]

/-- C10, witness: a data field that is only a `0x` substring normalises to the
empty string and the row is skipped; a successfully normalised field gives a
nonempty payload. -/
theorem c10_empty_payload_witness :
    coreNorm "0x" = [] ∧ processRow [] ⟨"t", "1", "0x"⟩ = RowResult.skipped ∧
      hexToBytes ("AB" : String).data ≠ [] :=
  ⟨by decide, (c10_empty_payload [] ⟨"t", "1", "0x"⟩).1 (by decide),
    (c10_empty_payload [] ⟨"t", "1", "0x"⟩).2 "AB" "AB" (by decide)⟩

/-- C1, counterexample: in the two-signal message `M`, a one-byte payload puts
signal `B` out of range; the decoder emits only the record for `A` — the
failed signal gets no record at all, so not every signal yields one. -/
theorem c1_counterexample :
    msgAB.signals.map Signal.name = ["A", "B"] ∧
    lookupMessage dbAB 1 = some msgAB ∧
    fitsBits sigB (8 * ([171] : List Nat).length) = false ∧
    (decodeFrame dbAB "t" 1 [171]).length = 1 ∧
    (∀ r ∈ decodeFrame dbAB "t" 1 [171], r.signal_name ≠ some "B") := by
  decide

/-- C1, amended: a signal whose bit span extends past the payload is silently
omitted (zero records), while every signal surviving the truncation filter
yields exactly one record: the number of records naming a signal `s` is one
if `s` survives and zero otherwise. -/
theorem c1_amended (db : Database) (ts : String) (cid : Int) (data : List Nat)
    (msg : Message) (h : lookupMessage db cid = some msg)
    (hnd : (msg.signals.map Signal.name).Nodup) (s : Signal) (hs : s ∈ msg.signals) :
    (decodeFrame db ts cid data).countP (fun r => r.signal_name == some s.name) =
      if s ∈ keptSignals msg data then 1 else 0 := by
  rw [decodeFrame_known db ts cid data msg h hnd]
  rw [List.countP_map]
  have hcomp : ((fun r => r.signal_name == some s.name) ∘
      (fun t => recordFor ts cid msg.name t (extractCore (paddedData msg data) t))) =
      (fun t => t.name == s.name) := by
    funext t
    rfl
  rw [hcomp]
  exact countP_name_filter msg.signals hnd (keepSignal msg data) s hs

/-- C1, witness: the amended theorem at the out-of-range signal `B` (zero
records) of the truncated two-signal message. -/
theorem c1_amended_witness :
    lookupMessage dbAB 1 = some msgAB ∧ sigB ∈ msgAB.signals ∧
      sigB ∉ keptSignals msgAB [171] ∧
      (decodeFrame dbAB "t" 1 [171]).countP (fun r => r.signal_name == some sigB.name) = 0 := by
  refine ⟨by decide, by decide, by decide, ?_⟩
  rw [c1_amended dbAB "t" 1 [171] msgAB (by decide) (by decide) sigB (by decide)]
  rw [if_neg (by decide)]

/-- C2, counterexample: frame id 7 is in the schema, but decoding the
one-byte payload `[170]` drops the message's only signal (out of range) and
returns zero records — the guaranteed non-empty result is false. -/
theorem c2_counterexample :
    lookupMessage dbT 7 = some msgT ∧ decodeFrame dbT "t" 7 [170] = [] := by
  decide

/-- C2, amended: the per-frame decode step is total (it is a function); it
returns exactly one record for an unknown id, and for a known, uniquely-named
message exactly one record per signal surviving the truncation filter — which
may be zero records. -/
theorem c2_amended (db : Database) (ts : String) (cid : Int) (data : List Nat) :
    (lookupMessage db cid = none → (decodeFrame db ts cid data).length = 1) ∧
    (∀ msg, lookupMessage db cid = some msg → (msg.signals.map Signal.name).Nodup →
      (decodeFrame db ts cid data).length = (keptSignals msg data).length) := by
  constructor
  · intro h
    simp [decodeFrame, h]
  · intro msg h hnd
    rw [decodeFrame_known db ts cid data msg h hnd, List.length_map]

/-- C2, witness: the amended theorem on the truncated frame with zero
surviving signals. -/
theorem c2_amended_witness :
    lookupMessage dbT 7 = some msgT ∧ (msgT.signals.map Signal.name).Nodup ∧
      (decodeFrame dbT "t" 7 [170]).length = (keptSignals msgT [170]).length ∧
      (keptSignals msgT [170]).length = 0 :=
  ⟨by decide, by decide,
    (c2_amended dbT "t" 7 [170]).2 msgT (by decide) (by decide), by decide⟩

/-- C3, counterexample: signal `C` has choices `{2: "FAULT"}`; raw value 3
matches no entry, yet the record carries `physical_value` absent (with the
scaled value's text in `state`) — the claimed fallback to a present
`physical_value` is false. -/
theorem c3_counterexample :
    lookupMessage dbC 9 = some msgC ∧
    sigC.choices = some [(2, "FAULT")] ∧
    extractCore (paddedData msgC [3]) sigC = 3 ∧
    (decodeFrame dbC "t" 9 [3]).map Record.physical_value = [none] ∧
    (decodeFrame dbC "t" 9 [3]).map Record.state ≠ [none] := by
  decide

/-- C3, amended: a matching choices entry yields that label as `state` with
`physical_value` absent; a signal with a (non-empty) choices table and no
matching entry also has `physical_value` absent, its `state` carrying the
scaled value's text; only a signal with no (or an empty) choices table gets
`physical_value = raw * scale + offset` with `state` absent. -/
theorem c3_amended (db : Database) (ts : String) (cid : Int) (data : List Nat)
    (msg : Message) (h : lookupMessage db cid = some msg)
    (hnd : (msg.signals.map Signal.name).Nodup) :
    ∀ s ∈ keptSignals msg data, ∀ raw, raw = extractCore (paddedData msg data) s →
      recordFor ts cid msg.name s raw ∈ decodeFrame db ts cid data ∧
      (∀ cs label, s.choices = some cs → cs.lookup (signedRaw s raw) = some label →
        (recordFor ts cid msg.name s raw).state = some label ∧
        (recordFor ts cid msg.name s raw).physical_value = none) ∧
      (choicesTruthy s = true →
        (recordFor ts cid msg.name s raw).physical_value = none ∧
        (recordFor ts cid msg.name s raw).state = some (sigValueStr (convert s raw))) ∧
      (choicesTruthy s = false →
        (recordFor ts cid msg.name s raw).physical_value = some (scaledValue s raw) ∧
        (recordFor ts cid msg.name s raw).state = none) := by
  intro s hs raw hraw
  subst hraw
  refine ⟨?_, ?_, ?_, ?_⟩
  · rw [decodeFrame_known db ts cid data msg h hnd]
    exact List.mem_map_of_mem _ hs
  · intro cs label hcs hlook
    have htr : choicesTruthy s = true := by
      unfold choicesTruthy
      rw [hcs]
      cases cs with
      | nil => simp [List.lookup] at hlook
      | cons a t => simp
    constructor
    · simp [recordFor, htr, convert, hcs, hlook, sigValueStr]
    · simp [recordFor, htr]
  · intro htr
    exact ⟨by simp [recordFor, htr], by simp [recordFor, htr]⟩
  · intro htr
    exact ⟨by simp [recordFor, htr], by simp [recordFor, htr]⟩

/-- C3, witness: the amended theorem on the spec's scenario 4 — choices
`{2: "FAULT"}` with raw value 2. -/
theorem c3_amended_witness :
    recordFor "t" 9 msgC.name sigC 2 ∈ decodeFrame dbC "t" 9 [2] ∧
      (recordFor "t" 9 msgC.name sigC 2).state = some "FAULT" ∧
      (recordFor "t" 9 msgC.name sigC 2).physical_value = none := by
  have H := c3_amended dbC "t" 9 [2] msgC (by decide) (by decide) sigC (by decide)
    2 (by decide)
  have H2 := H.2.1 [(2, "FAULT")] "FAULT" (by decide) (by decide)
  exact ⟨H.1, H2.1, H2.2⟩

/-- C4, counterexample: the spec's own example — RPM with scale 0.25, payload
`E8 03 ...` — extracts raw 1000, but the record's `raw_value` holds the
scaled 250, not the raw integer. -/
theorem c4_counterexample :
    extractCore (paddedData msgRPM [232, 3, 0, 0, 0, 0, 0, 0]) sigRPM = 1000 ∧
    (decodeFrame dbRPM "t" 291 [232, 3, 0, 0, 0, 0, 0, 0]).map Record.raw_value =
      [some (SigValue.num 250)] ∧
    (SigValue.num 250 ≠ SigValue.num 1000) := by
  refine ⟨by decide, ?_, by simp⟩
  have hext : extractCore (paddedData msgRPM [232, 3, 0, 0, 0, 0, 0, 0]) sigRPM = 1000 := by
    decide
  simp [msgRPM, sigRPM] at hext
  simp [decodeFrame, lookupMessage, cantoolsDecode, keptSignals, keepSignal, msgRPM,
    decodeSignalsLoop, getSignalByName, mkSignalRecord, choicesTruthy, sigRPM, convert,
    List.find?, List.filter, hext, scaledValue, signedRaw]
  norm_num

/-- C4, amended: `raw_value` holds the decoded value — the enumeration label
when one matched, otherwise the scaled number — not the pre-scaling raw
integer; it coincides with the raw integer exactly in the identity-scaling
case; an absent `raw_value` is rendered as `N/A`. -/
theorem c4_amended (db : Database) (ts : String) (cid : Int) (data : List Nat)
    (msg : Message) (h : lookupMessage db cid = some msg)
    (hnd : (msg.signals.map Signal.name).Nodup) :
    (∀ s ∈ keptSignals msg data,
      recordFor ts cid msg.name s (extractCore (paddedData msg data) s) ∈
          decodeFrame db ts cid data ∧
      (recordFor ts cid msg.name s (extractCore (paddedData msg data) s)).raw_value =
        some (convert s (extractCore (paddedData msg data) s)) ∧
      (s.choices = none → s.isSigned = false → s.scale = 1 → s.offset = 0 →
        convert s (extractCore (paddedData msg data) s) =
          SigValue.num ((extractCore (paddedData msg data) s : Nat) : ℚ))) ∧
    (∀ r : Record, r.raw_value = none → (renderRecord r).raw_value = "N/A") := by
  constructor
  · intro s hs
    refine ⟨?_, rfl, ?_⟩
    · rw [decodeFrame_known db ts cid data msg h hnd]
      exact List.mem_map_of_mem _ hs
    · intro hch hsig hsc hoff
      simp [convert, hch, scaledValue, signedRaw, hsig, hsc, hoff]
  · intro r hr
    simp [renderRecord, hr]

/-- C4, witness: the amended theorem at the identity-scaled signal `A`, whose
`raw_value` does equal the raw extracted integer. -/
theorem c4_amended_witness :
    (recordFor "t" 1 msgAB.name sigA (extractCore (paddedData msgAB [171]) sigA)).raw_value =
        some (convert sigA (extractCore (paddedData msgAB [171]) sigA)) ∧
      convert sigA (extractCore (paddedData msgAB [171]) sigA) =
        SigValue.num ((extractCore (paddedData msgAB [171]) sigA : Nat) : ℚ) := by
  have H := (c4_amended dbAB "t" 1 [171] msgAB (by decide) (by decide)).1 sigA (by decide)
  exact ⟨H.2.1, H.2.2 rfl rfl rfl rfl⟩

end CAN
